import Mathlib

/-!
Shallow embedding of the LogCabin test-harness sources (the failover
partition test, the read-after-write consistency loop, and the
latency/bandwidth benchmark) together with proofs about the embedded
operations.  Strings are modelled as `List Char`; `std::getline` item
splitting, host/port parsing and joining, the discovery/seed/verify
phases of the partition test, the benchmark worker quota and loop, and
the consistency loop's per-round action trace are all translated
directly from the C++ sources.
-/

set_option autoImplicit false

namespace LogCabinHarness

/-- Strings from the C++ sources are modelled as lists of characters. -/
abbrev Str := List Char

instance {ε α : Type} [DecidableEq ε] [DecidableEq α] : DecidableEq (Except ε α)
  | Except.error a, Except.error b =>
      if h : a = b then isTrue (by rw [h]) else isFalse (by intro hc; cases hc; exact h rfl)
  | Except.error _, Except.ok _ => isFalse (by intro hc; cases hc)
  | Except.ok _, Except.error _ => isFalse (by intro hc; cases hc)
  | Except.ok a, Except.ok b =>
      if h : a = b then isTrue (by rw [h]) else isFalse (by intro hc; cases hc; exact h rfl)

/-- Items produced by the `std::getline(stream, item, ',')` loop in
`parseHostPortList`: the input is cut at each comma; a trailing comma
produces no trailing empty item, and an empty input produces no items. -/
def getlineItems : Str → List Str
  | [] => []
  | c :: rest =>
      if c = ',' then [] :: getlineItems rest
      else
        match getlineItems rest with
        | [] => [[c]]
        | item :: items => (c :: item) :: items

/-- `item.find(':')` / `substr` pair from `parseHostPortList`: splits an
item at its first colon into host and port, or fails when the item
contains no colon. -/
def splitAtFirstColon : Str → Option (Str × Str)
  | [] => none
  | c :: rest =>
      if c = ':' then some ([], rest)
      else
        match splitAtFirstColon rest with
        | none => none
        | some (h, p) => some (c :: h, p)

/-- The per-item body of the `parseHostPortList` loop: each item is split
at its first colon; an item without a colon triggers `PANIC` (modelled as
`Except.error` carrying the offending item, with no partial result). -/
def parseItems : List Str → Except Str (List (Str × Str))
  | [] => Except.ok []
  | item :: rest =>
      match splitAtFirstColon item with
      | none => Except.error item
      | some (h, p) =>
          match parseItems rest with
          | Except.error e => Except.error e
          | Except.ok l => Except.ok ((h, p) :: l)

/-- `parseHostPortList` from the partition test: comma-separated items,
each split at its first colon into a (host, port) pair. -/
def parseHostPortList (input : Str) : Except Str (List (Str × Str)) :=
  parseItems (getlineItems input)

/-- `joinHostPortList` from the partition test: `host:port` pairs joined
with commas (no separator after the final pair). -/
def joinHostPortList : List (Str × Str) → Str
  | [] => []
  | [(h, p)] => h ++ ':' :: p
  | (h, p) :: rest => h ++ ':' :: p ++ ',' :: joinHostPortList rest

theorem getlineItems_no_comma (piece : Str) (hc : (',' : Char) ∉ piece) (hne : piece ≠ []) :
    getlineItems piece = [piece] := by
  induction piece with
  | nil => exact absurd rfl hne
  | cons c rest ih =>
      have hcne : c ≠ ',' := fun h => hc (h ▸ List.mem_cons_self c rest)
      have hrest : (',' : Char) ∉ rest := fun h => hc (List.mem_cons_of_mem c h)
      cases rest with
      | nil => simp [getlineItems, hcne]
      | cons d rest2 =>
          rw [getlineItems, if_neg hcne, ih hrest (by simp)]

theorem getlineItems_append_comma (piece t : Str) (hc : (',' : Char) ∉ piece) :
    getlineItems (piece ++ ',' :: t) = piece :: getlineItems t := by
  induction piece with
  | nil => simp [getlineItems]
  | cons c rest ih =>
      have hcne : c ≠ ',' := fun h => hc (h ▸ List.mem_cons_self c rest)
      have hrest : (',' : Char) ∉ rest := fun h => hc (List.mem_cons_of_mem c h)
      rw [List.cons_append, getlineItems, if_neg hcne, ih hrest]

theorem mem_getlineItems_no_comma :
    ∀ s : Str, ∀ item ∈ getlineItems s, (',' : Char) ∉ item := by
  intro s
  induction s with
  | nil => intro item h; simp [getlineItems] at h
  | cons c rest ih =>
      intro item hmem
      by_cases hcc : c = ','
      · subst hcc
        rw [getlineItems, if_pos rfl] at hmem
        rcases List.mem_cons.mp hmem with h | h
        · subst h; simp
        · exact ih item h
      · rw [getlineItems, if_neg hcc] at hmem
        cases hgl : getlineItems rest with
        | nil =>
            rw [hgl] at hmem
            simp at hmem
            subst hmem
            intro hin
            simp at hin
            exact hcc hin.symm
        | cons item0 items0 =>
            rw [hgl] at hmem
            rcases List.mem_cons.mp hmem with h | h
            · subst h
              intro hin
              rcases List.mem_cons.mp hin with h | h
              · exact hcc h.symm
              · exact ih item0 (hgl ▸ List.mem_cons_self item0 items0) h
            · exact ih item (hgl ▸ List.mem_cons_of_mem item0 h)

theorem splitAtFirstColon_eq_some :
    ∀ {item h p : Str}, splitAtFirstColon item = some (h, p) →
      item = h ++ ':' :: p ∧ (':' : Char) ∉ h := by
  intro item
  induction item with
  | nil => intro h p hsp; simp [splitAtFirstColon] at hsp
  | cons c rest ih =>
      intro h p hsp
      by_cases hcc : c = ':'
      · subst hcc
        rw [splitAtFirstColon, if_pos rfl] at hsp
        obtain ⟨rfl, rfl⟩ : ([] : Str) = h ∧ rest = p := by
          constructor <;> [exact congrArg Prod.fst (Option.some.inj hsp);
            exact congrArg Prod.snd (Option.some.inj hsp)]
        simp
      · rw [splitAtFirstColon, if_neg hcc] at hsp
        cases hrec : splitAtFirstColon rest with
        | none => rw [hrec] at hsp; simp at hsp
        | some hp0 =>
            obtain ⟨h0, p0⟩ := hp0
            rw [hrec] at hsp
            obtain ⟨rfl, rfl⟩ : c :: h0 = h ∧ p0 = p := by
              constructor <;> [exact congrArg Prod.fst (Option.some.inj hsp);
                exact congrArg Prod.snd (Option.some.inj hsp)]
            obtain ⟨hre, hnc⟩ := ih hrec
            refine ⟨by rw [hre]; rfl, ?_⟩
            intro hin
            rcases List.mem_cons.mp hin with hx | hx
            · exact hcc hx.symm
            · exact hnc hx

theorem splitAtFirstColon_append (h p : Str) (hh : (':' : Char) ∉ h) :
    splitAtFirstColon (h ++ ':' :: p) = some (h, p) := by
  induction h with
  | nil => simp [splitAtFirstColon]
  | cons c rest ih =>
      have hcne : c ≠ ':' := fun hx => hh (hx ▸ List.mem_cons_self c rest)
      have hrest : (':' : Char) ∉ rest := fun hx => hh (List.mem_cons_of_mem c hx)
      rw [List.cons_append, splitAtFirstColon, if_neg hcne, ih hrest]

theorem splitAtFirstColon_eq_none {item : Str} :
    splitAtFirstColon item = none ↔ (':' : Char) ∉ item := by
  induction item with
  | nil => simp [splitAtFirstColon]
  | cons c rest ih =>
      by_cases hcc : c = ':'
      · subst hcc
        rw [splitAtFirstColon, if_pos rfl]
        simp
      · rw [splitAtFirstColon, if_neg hcc]
        cases hrec : splitAtFirstColon rest with
        | none =>
            simp only [List.mem_cons, not_or]
            constructor
            · intro _; exact ⟨fun hx => hcc hx.symm, ih.mp hrec⟩
            · intro _; trivial
        | some hp0 =>
            simp only [List.mem_cons, not_or]
            constructor
            · intro hx; cases hx
            · intro ⟨_, hx⟩
              exact absurd hrec (by rw [ih.mpr hx]; simp)

theorem parseItems_ok_mem {items : List Str} {L : List (Str × Str)}
    (hok : parseItems items = Except.ok L) :
    ∀ hp ∈ L, ∃ item ∈ items, splitAtFirstColon item = some hp := by
  induction items generalizing L with
  | nil =>
      obtain rfl : ([] : List (Str × Str)) = L := by
        simpa [parseItems] using hok
      intro hp h; cases h
  | cons item rest ih =>
      rw [parseItems] at hok
      cases hsp : splitAtFirstColon item with
      | none => rw [hsp] at hok; cases hok
      | some hp0 =>
          obtain ⟨h0, p0⟩ := hp0
          rw [hsp] at hok
          cases hpi : parseItems rest with
          | error e => rw [hpi] at hok; cases hok
          | ok l =>
              rw [hpi] at hok
              obtain rfl : (h0, p0) :: l = L := by
                exact Except.ok.inj hok
              intro hp hmem
              rcases List.mem_cons.mp hmem with h | h
              · exact ⟨item, List.mem_cons_self item rest, h ▸ hsp⟩
              · obtain ⟨it, hit, hsplit⟩ := ih hpi hp h
                exact ⟨it, List.mem_cons_of_mem item hit, hsplit⟩

/-- Well-formedness of a parsed list: no commas in hosts or ports, no
colon in hosts. -/
def WellFormedPairs (L : List (Str × Str)) : Prop :=
  ∀ hp ∈ L, (',' : Char) ∉ hp.1 ∧ (',' : Char) ∉ hp.2 ∧ (':' : Char) ∉ hp.1

theorem parse_ok_wellformed {s : Str} {L : List (Str × Str)}
    (hparse : parseHostPortList s = Except.ok L) : WellFormedPairs L := by
  intro hp hmem
  obtain ⟨item, hitem, hsplit⟩ := parseItems_ok_mem hparse hp hmem
  obtain ⟨heq, hnc⟩ := splitAtFirstColon_eq_some (h := hp.1) (p := hp.2)
    (by rw [hsplit])
  have hcomma : (',' : Char) ∉ item := mem_getlineItems_no_comma s item hitem
  rw [heq] at hcomma
  refine ⟨fun hx => hcomma (List.mem_append_left _ hx), fun hx => ?_, hnc⟩
  exact hcomma (List.mem_append_right _ (List.mem_cons_of_mem _ hx))

theorem parse_join_of_wellformed :
    ∀ L : List (Str × Str), WellFormedPairs L →
      parseHostPortList (joinHostPortList L) = Except.ok L := by
  intro L
  induction L with
  | nil => intro _; rfl
  | cons hp rest ih =>
      intro hwf
      obtain ⟨h, p⟩ := hp
      obtain ⟨hch, hcp, hcolh⟩ := hwf (h, p) (List.mem_cons_self _ _)
      have hwrest : WellFormedPairs rest := fun x hx => hwf x (List.mem_cons_of_mem _ hx)
      have hpiece : (',' : Char) ∉ h ++ ':' :: p := by
        intro hx
        rcases List.mem_append.mp hx with hx | hx
        · exact hch hx
        · rcases List.mem_cons.mp hx with hx | hx
          · cases hx
          · exact hcp hx
      cases rest with
      | nil =>
          rw [joinHostPortList, parseHostPortList,
            getlineItems_no_comma (h ++ ':' :: p) hpiece (by simp),
            parseItems, splitAtFirstColon_append h p hcolh]
          rfl
      | cons hp2 rest2 =>
          have hjoin : joinHostPortList ((h, p) :: hp2 :: rest2)
              = (h ++ ':' :: p) ++ ',' :: joinHostPortList (hp2 :: rest2) := by
            rw [joinHostPortList]
            simp
          rw [hjoin, parseHostPortList,
            getlineItems_append_comma (h ++ ':' :: p) _ hpiece,
            parseItems, splitAtFirstColon_append h p hcolh]
          have := ih hwrest
          rw [parseHostPortList] at this
          rw [this]

/-- C5: for every endpoint list produced by `parseHostPortList`, parsing
the serialization returns the same list:
`parseHostPortList (joinHostPortList L) = ok L`. -/
theorem parse_join_roundtrip (s : Str) (L : List (Str × Str))
    (hparse : parseHostPortList s = Except.ok L) :
    parseHostPortList (joinHostPortList L) = Except.ok L :=
  parse_join_of_wellformed L (parse_ok_wellformed hparse)

/-- C5 witness: the round-trip law applied to the concrete input
`"a:1,b:22"`. -/
theorem parse_join_roundtrip_witness :
    parseHostPortList
        (joinHostPortList [("a".toList, "1".toList), ("b".toList, "22".toList)])
      = Except.ok [("a".toList, "1".toList), ("b".toList, "22".toList)] :=
  parse_join_roundtrip ("a:1,b:22".toList) _ (by decide)

/-- C9: `parseHostPortList` fails with an error naming a comma-separated
item that contains no colon (and returns no partial result), and it
returns an endpoint sequence exactly when every item contains a colon,
splitting each item at its first colon (the host part contains no colon
and host, colon, port reassemble each item in order). -/
theorem parse_format_error_naming (s : Str) :
    match parseHostPortList s with
    | Except.error bad => bad ∈ getlineItems s ∧ (':' : Char) ∉ bad
    | Except.ok L =>
        (∀ item ∈ getlineItems s, (':' : Char) ∈ item) ∧
        L.map (fun hp => hp.1 ++ ':' :: hp.2) = getlineItems s ∧
        ∀ hp ∈ L, (':' : Char) ∉ hp.1 := by
  rw [parseHostPortList]
  generalize getlineItems s = items
  induction items with
  | nil => simp [parseItems]
  | cons item rest ih =>
      rw [parseItems]
      cases hsp : splitAtFirstColon item with
      | none =>
          refine ⟨List.mem_cons_self _ _, splitAtFirstColon_eq_none.mp hsp⟩
      | some hp0 =>
          obtain ⟨h0, p0⟩ := hp0
          have hitem : item = h0 ++ ':' :: p0 ∧ (':' : Char) ∉ h0 :=
            splitAtFirstColon_eq_some hsp
          cases hpi : parseItems rest with
          | error e =>
              rw [hpi] at ih
              exact ⟨List.mem_cons_of_mem _ ih.1, ih.2⟩
          | ok l =>
              rw [hpi] at ih
              refine ⟨?_, ?_, ?_⟩
              · intro it hit
                rcases List.mem_cons.mp hit with h | h
                · rw [h, hitem.1]
                  exact List.mem_append_right _ (List.mem_cons_self _ _)
                · exact ih.1 it h
              · simp only [List.map_cons]
                rw [← hitem.1, ih.2.1]
              · intro hp hmem
                rcases List.mem_cons.mp hmem with h | h
                · rw [h]; exact hitem.2
                · exact ih.2.2 hp h

/-- The Raft role a server reports through `getServerStatsEx`
(`ServerStats_Raft::State`). -/
inductive RaftState where
  | unknown
  | follower
  | candidate
  | leader
deriving DecidableEq

/-- Path of the test directory, `"/ConsistencyTest"`. -/
def consistencyDirPath : Str := "/ConsistencyTest".toList

/-- Path of the test key, `"/ConsistencyTest/test"`. -/
def consistencyTestPath : Str := "/ConsistencyTest/test".toList

/-- The value `"foo"` seeded through the old leader. -/
def fooValue : Str := "foo".toList

/-- The value `"bar"` written through the new leader. -/
def barValue : Str := "bar".toList

/-- The host `"localhost"`. -/
def localhostHost : Str := "localhost".toList

/-- The prefix `"localhost:"` prepended to the old leader's port when
reconnecting directly to it. -/
def localhostColon : Str := "localhost:".toList

/-- The loop body of `leaderPort`: scans the parsed host list in order
and returns the port of the first endpoint whose stats report the
LEADER role, or the empty string when none does.  The environment of
stats responses is abstracted as a function from host and port to the
reported Raft role. -/
def findLeaderPort (stats : Str → Str → RaftState) : List (Str × Str) → Str
  | [] => []
  | (h, p) :: rest =>
      if stats h p = RaftState.leader then p else findLeaderPort stats rest

/-- `leaderPort` from the partition test: parses the cluster string
(`PANIC` on a malformed entry, modelled as `Except.error`) and scans the
endpoints for one reporting LEADER. -/
def leaderPort (stats : Str → Str → RaftState) (clusterStr : Str) : Except Str Str :=
  match parseHostPortList clusterStr with
  | Except.error e => Except.error e
  | Except.ok hosts => Except.ok (findLeaderPort stats hosts)

/-- Observable tree/cluster operations issued by the partition test. -/
inductive Action where
  | makeDirectory (path : Str)
  | write (path value : Str)
  | partition (port : Str)
deriving DecidableEq

/-- The discovery-and-seed block of the partition test's `main` (the
`cluster1` scope): finds the leader port, then unconditionally creates
the test directory, writes `"foo"` to the test key, and partitions the
discovered port.  Returns the recorded `oldLeaderPort` and the sequence
of operations issued. -/
def seedPhase (stats : Str → Str → RaftState) (clusterStr : Str) :
    Except Str (Str × List Action) :=
  match leaderPort stats clusterStr with
  | Except.error e => Except.error e
  | Except.ok oldLeaderPort =>
      Except.ok (oldLeaderPort,
        [Action.makeDirectory consistencyDirPath,
         Action.write consistencyTestPath fooValue,
         Action.partition oldLeaderPort])

/-- Terminal outcome of the verify block of the partition test's
`main`. -/
inductive VerifyOutcome where
  | exitLeadershipChanged (reportedPort : Str)
  | readOk
  | violationLogged (contents : Str)
deriving DecidableEq

/-- The verify block of the partition test's `main` (lines after
"Reconnect to old leader"): queries the old leader's own address for the
current leader port; if it differs from `oldLeaderPort` the program
calls `exit(2)`; otherwise it reads the test key and, when the contents
differ from `"bar"`, merely logs a consistency-violation NOTICE.
`readResult` abstracts the value returned by `readEx`. -/
def verifyPhase (stats : Str → Str → RaftState) (readResult oldLeaderPort : Str) :
    Except Str VerifyOutcome :=
  match leaderPort stats (localhostColon ++ oldLeaderPort) with
  | Except.error e => Except.error e
  | Except.ok leaderPort3 =>
      if leaderPort3 ≠ oldLeaderPort then
        Except.ok (VerifyOutcome.exitLeadershipChanged leaderPort3)
      else
        Except.ok (if readResult = barValue then VerifyOutcome.readOk
                   else VerifyOutcome.violationLogged readResult)

/-- The process exit status produced by each verify outcome: `exit(2)`
for a changed leadership; falling off the end of `main` (status 0) both
when the read returns `"bar"` and when the violation is only logged. -/
def verifyExitCode : VerifyOutcome → Nat
  | VerifyOutcome.exitLeadershipChanged _ => 2
  | VerifyOutcome.readOk => 0
  | VerifyOutcome.violationLogged _ => 0

/-- Whether the verify block reached the `readEx` call. -/
def verifyReadPerformed : VerifyOutcome → Bool
  | VerifyOutcome.exitLeadershipChanged _ => false
  | VerifyOutcome.readOk => true
  | VerifyOutcome.violationLogged _ => true

theorem parse_localhost_port (p : Str) (hc : (',' : Char) ∉ p) :
    parseHostPortList (localhostColon ++ p) = Except.ok [(localhostHost, p)] := by
  have hsplit : localhostColon ++ p = localhostHost ++ ':' :: p := by
    have : localhostColon = localhostHost ++ [':'] := by decide
    rw [this, List.append_assoc]
    rfl
  have hnc : (',' : Char) ∉ localhostHost ++ ':' :: p := by
    intro hx
    rcases List.mem_append.mp hx with hx | hx
    · revert hx; decide
    · rcases List.mem_cons.mp hx with hx | hx
      · cases hx
      · exact hc hx
  rw [hsplit, parseHostPortList,
    getlineItems_no_comma _ hnc (by simp),
    parseItems, splitAtFirstColon_append _ _ (by decide)]
  rfl

/-- C1 counterexample: with the old leader (port `"5254"`) still
reporting the LEADER role, the verify block does not fail: it silently
continues to the read step and the process exit status is 0, refuting
the claim that a still-LEADER report is signalled fatally. -/
theorem verifyPhase_still_leader_continues :
    verifyPhase (fun _ _ => RaftState.leader) barValue ("5254".toList)
        = Except.ok VerifyOutcome.readOk
    ∧ (fun _ _ => RaftState.leader) localhostHost ("5254".toList) = RaftState.leader
    ∧ verifyReadPerformed VerifyOutcome.readOk = true
    ∧ verifyExitCode VerifyOutcome.readOk = 0 := by
  decide

/-- C1 amended: the verify block exits with the distinct status 2,
without reaching the read step, exactly when the old leader's address no
longer reports the LEADER role (so the queried leader port differs from
`oldLeaderPort`); when the old leader still reports LEADER the program
proceeds to the read step. -/
theorem verifyPhase_behavior (stats : Str → Str → RaftState)
    (readResult oldPort : Str) (hc : (',' : Char) ∉ oldPort) :
    (stats localhostHost oldPort = RaftState.leader →
        verifyPhase stats readResult oldPort =
          Except.ok (if readResult = barValue then VerifyOutcome.readOk
                     else VerifyOutcome.violationLogged readResult))
    ∧ (stats localhostHost oldPort ≠ RaftState.leader → oldPort ≠ [] →
        verifyPhase stats readResult oldPort =
          Except.ok (VerifyOutcome.exitLeadershipChanged []) ∧
        verifyExitCode (VerifyOutcome.exitLeadershipChanged []) = 2 ∧
        verifyReadPerformed (VerifyOutcome.exitLeadershipChanged []) = false) := by
  have hparse := parse_localhost_port oldPort hc
  constructor
  · intro hlead
    simp [verifyPhase, leaderPort, hparse, findLeaderPort, hlead]
  · intro hnot hne
    have hfp : findLeaderPort stats [(localhostHost, oldPort)] = [] := by
      simp [findLeaderPort, hnot]
    refine ⟨?_, rfl, rfl⟩
    simp [verifyPhase, leaderPort, hparse, hfp]
    intro hx
    exact absurd hx hne

/-- C1 witness: the amended behavior at a concrete environment where the
old leader now reports FOLLOWER. -/
theorem verifyPhase_behavior_witness :
    verifyPhase (fun _ _ => RaftState.follower) barValue ("5254".toList)
        = Except.ok (VerifyOutcome.exitLeadershipChanged []) ∧
      verifyExitCode (VerifyOutcome.exitLeadershipChanged []) = 2 ∧
      verifyReadPerformed (VerifyOutcome.exitLeadershipChanged []) = false :=
  (verifyPhase_behavior (fun _ _ => RaftState.follower) barValue ("5254".toList)
    (by decide)).2 (by decide) (by decide)

/-- C2 counterexample: a run that reaches the verify-read step and reads
`"foo" ≠ "bar"` logs the violation but the process exit status is 0,
refuting the claim that such a run ends with a non-zero exit status. -/
theorem verifyPhase_violation_exits_zero :
    verifyPhase (fun _ _ => RaftState.leader) fooValue ("5254".toList)
        = Except.ok (VerifyOutcome.violationLogged fooValue)
    ∧ fooValue ≠ barValue
    ∧ verifyReadPerformed (VerifyOutcome.violationLogged fooValue) = true
    ∧ verifyExitCode (VerifyOutcome.violationLogged fooValue) = 0 := by
  decide

/-- C2 amended: in every run that reaches the verify-read step, the
value read is compared against `"bar"`: equality yields the silent
success outcome and inequality yields the logged-violation outcome
carrying the read value — but in both cases the process exit status is
0, not non-zero. -/
theorem verifyPhase_read_comparison (stats : Str → Str → RaftState)
    (readResult oldPort : Str) (o : VerifyOutcome)
    (hrun : verifyPhase stats readResult oldPort = Except.ok o)
    (hread : verifyReadPerformed o = true) :
    o = (if readResult = barValue then VerifyOutcome.readOk
         else VerifyOutcome.violationLogged readResult)
    ∧ (readResult ≠ barValue → o = VerifyOutcome.violationLogged readResult)
    ∧ verifyExitCode o = 0 := by
  rw [verifyPhase] at hrun
  cases hlp : leaderPort stats (localhostColon ++ oldPort) with
  | error e => rw [hlp] at hrun; cases hrun
  | ok lp3 =>
      rw [hlp] at hrun
      by_cases heq : lp3 = oldPort
      · simp only [heq, ne_eq, not_true_eq_false, if_neg, ite_false] at hrun
        have ho : o = (if readResult = barValue then VerifyOutcome.readOk
            else VerifyOutcome.violationLogged readResult) :=
          (Except.ok.inj hrun).symm
        refine ⟨ho, fun hneq => by rw [ho, if_neg hneq], ?_⟩
        rw [ho]
        by_cases hbar : readResult = barValue
        · rw [if_pos hbar]; rfl
        · rw [if_neg hbar]; rfl
      · have ho : o = VerifyOutcome.exitLeadershipChanged lp3 := by
          simp [heq] at hrun
          exact hrun.symm
        rw [ho] at hread
        cases hread

/-- C2 witness: the amended read-comparison behavior applied to a
concrete run that reads `"foo"`. -/
theorem verifyPhase_read_comparison_witness :
    VerifyOutcome.violationLogged fooValue
        = (if fooValue = barValue then VerifyOutcome.readOk
           else VerifyOutcome.violationLogged fooValue)
    ∧ (fooValue ≠ barValue →
        VerifyOutcome.violationLogged fooValue
          = VerifyOutcome.violationLogged fooValue)
    ∧ verifyExitCode (VerifyOutcome.violationLogged fooValue) = 0 :=
  verifyPhase_read_comparison (fun _ _ => RaftState.leader) fooValue
    ("5254".toList) (VerifyOutcome.violationLogged fooValue)
    (by decide) (by decide)

/-- C3 counterexample: with every endpoint reporting FOLLOWER, the
single discovery pass finds no leader (`leaderPort` returns the empty
string), yet the program does not fail: it proceeds into the seed phase
and the directory creation and write are performed, refuting the claim. -/
theorem seedPhase_no_leader_counterexample :
    leaderPort (fun _ _ => RaftState.follower) ("h:1".toList) = Except.ok []
    ∧ seedPhase (fun _ _ => RaftState.follower) ("h:1".toList) =
        Except.ok ([],
          [Action.makeDirectory consistencyDirPath,
           Action.write consistencyTestPath fooValue,
           Action.partition []])
    ∧ Action.write consistencyTestPath fooValue
        ∈ [Action.makeDirectory consistencyDirPath,
           Action.write consistencyTestPath fooValue,
           Action.partition []] := by
  decide

/-- C3 amended: when the single discovery pass finds no leader,
`leaderPort` returns the empty string and the program proceeds to the
seed phase anyway, issuing the directory creation, the `"foo"` write,
and a partition call on the empty port; no fatal failure occurs at this
stage. -/
theorem seedPhase_no_leader_proceeds (stats : Str → Str → RaftState)
    (clusterStr : Str) (hlp : leaderPort stats clusterStr = Except.ok []) :
    seedPhase stats clusterStr =
      Except.ok ([],
        [Action.makeDirectory consistencyDirPath,
         Action.write consistencyTestPath fooValue,
         Action.partition []]) := by
  rw [seedPhase, hlp]

/-- C3 witness: the amended seed-phase behavior at a concrete
follower-only environment. -/
theorem seedPhase_no_leader_proceeds_witness :
    seedPhase (fun _ _ => RaftState.follower) ("h:1".toList) =
      Except.ok ([],
        [Action.makeDirectory consistencyDirPath,
         Action.write consistencyTestPath fooValue,
         Action.partition []]) :=
  seedPhase_no_leader_proceeds (fun _ _ => RaftState.follower) ("h:1".toList)
    (by decide)

/-- Observable side effects of the latency-setup and cleanup helpers:
either a log message (`NOTICE`) or the execution of an external shell
command. -/
inductive Effect where
  | log (msg : Str)
  | execCmd (cmd : Str)
deriving DecidableEq

/-- Whether an effect is merely a log message. -/
def Effect.isLog : Effect → Bool
  | Effect.log _ => true
  | Effect.execCmd _ => false

/-- `executeCommand` from the partition test: its body is empty, so it
produces no effect whatsoever for any command string. -/
def executeCommand (_cmd : Str) : List Effect := []

def setupLatencyStartMsg : Str := "Setting up artificial network latency...".toList

def setupLatencyDoneMsg : Str := "Artificial latency setup complete.".toList

def cleanupStartMsg : Str := "Cleaning up nftables rules...".toList

def cleanupDoneMsg : Str := "Cleanup complete.".toList

def nftInputRulePrefix : Str :=
  "sudo nft add rule inet logcabin_test input tcp dport ".toList

def nftOutputRulePrefix : Str :=
  "sudo nft add rule inet logcabin_test output tcp sport ".toList

def nftRateSuffix : Str := " limit rate 100 bytes/second".toList

def nftFlushCmd : Str := "sudo nft flush table inet logcabin_test".toList

def nftDeleteCmd : Str := "sudo nft delete table inet logcabin_test".toList

/-- Effects of `setupLatency`: a NOTICE, then for each parsed host two
rate-limit commands delegated to `executeCommand`, then a final NOTICE.
On a malformed cluster string the `PANIC` inside `parseHostPortList`
aborts the process after the first NOTICE. -/
def setupLatency (cluster : Str) : List Effect :=
  Effect.log setupLatencyStartMsg ::
    match parseHostPortList cluster with
    | Except.error _ => []
    | Except.ok hosts =>
        (hosts.map fun hp =>
          executeCommand (nftInputRulePrefix ++ hp.2 ++ nftRateSuffix) ++
          executeCommand (nftOutputRulePrefix ++ hp.2 ++ nftRateSuffix)).flatten ++
        [Effect.log setupLatencyDoneMsg]

/-- Effects of `cleanup`: a NOTICE, the flush and delete commands
delegated to `executeCommand`, and a final NOTICE. -/
def cleanup : List Effect :=
  Effect.log cleanupStartMsg ::
    executeCommand nftFlushCmd ++ executeCommand nftDeleteCmd ++
    [Effect.log cleanupDoneMsg]

/-- C10: because `executeCommand` has an empty body, `setupLatency` (for
every cluster string) and `cleanup` produce only log effects — no
external command is ever executed and no other observable state is
touched. -/
theorem setupLatency_cleanup_only_logs :
    (∀ cluster : Str, (setupLatency cluster).all Effect.isLog = true)
    ∧ cleanup.all Effect.isLog = true := by
  constructor
  · intro cluster
    rw [setupLatency]
    cases hp : parseHostPortList cluster with
    | error err => simp [Effect.isLog]
    | ok hosts => simp [executeCommand, Effect.isLog]
  · simp [cleanup, executeCommand, Effect.isLog]

/-- `OperationType` from the benchmark. -/
inductive OperationType where
  | READ
  | WRITE
deriving DecidableEq

/-- `LogCabin::Client::Status` values a tree operation can report;
`lookupError` is the "not found" status. -/
inductive Status where
  | ok
  | invalidArgument
  | lookupError
  | typeError
  | conditionNotMet
  | timeout
deriving DecidableEq

/-- The quota computation at the top of `operationThreadMain`:
`numOperations = totalOperations / threads`, plus one extra when
`totalOperations - numOperations * threads > id`. -/
def workerNumOperations (totalOperations threads id : Nat) : Nat :=
  let numOperations := totalOperations / threads
  if totalOperations - numOperations * threads > id then numOperations + 1
  else numOperations

/-- How a benchmark worker's loop ends: quota exhausted, stopped by the
shared flag, `::exit(1)` on a fatal read status, or a
`Client::Exception` thrown by `writeEx` (caught in `main`, which then
calls `exit(1)`).  Each constructor records `operationsDone`. -/
inductive WorkerOutcome where
  | finished (operationsDone : Nat)
  | stoppedByFlag (operationsDone : Nat)
  | processExit (code : Nat) (operationsDone : Nat)
  | clientException (operationsDone : Nat)
deriving DecidableEq

/-- The process exit status each worker outcome forces: `none` when the
thread returns normally, the code of `::exit` for a fatal read, and 1
for a `Client::Exception` (caught in `main`, which exits 1). -/
def workerExitCode : WorkerOutcome → Option Nat
  | WorkerOutcome.processExit code _ => some code
  | WorkerOutcome.clientException _ => some 1
  | _ => none

/-- The `for` loop of `operationThreadMain`: before each operation the
shared flag is checked; a READ whose status is neither OK nor
LOOKUP_ERROR calls `::exit(1)`; a WRITE uses `writeEx`, which throws on
any non-OK status.  `results` abstracts the status of the i-th
operation and `exitFlag` the shared cancellation flag as observed before
the i-th operation. -/
def operationLoop (operationType : OperationType) (results : Nat → Status)
    (exitFlag : Nat → Bool) : Nat → Nat → WorkerOutcome
  | done, 0 => WorkerOutcome.finished done
  | done, n + 1 =>
      if exitFlag done then WorkerOutcome.stoppedByFlag done
      else
        match operationType with
        | OperationType.READ =>
            if results done ≠ Status.ok ∧ results done ≠ Status.lookupError then
              WorkerOutcome.processExit 1 done
            else operationLoop operationType results exitFlag (done + 1) n
        | OperationType.WRITE =>
            if results done = Status.ok then
              operationLoop operationType results exitFlag (done + 1) n
            else WorkerOutcome.clientException done

/-- `operationThreadMain`: worker `id` runs the loop for its assigned
quota. -/
def operationThreadMain (id totalOperations threads : Nat)
    (operationType : OperationType) (results : Nat → Status)
    (exitFlag : Nat → Bool) : WorkerOutcome :=
  operationLoop operationType results exitFlag 0
    (workerNumOperations totalOperations threads id)

theorem sum_range_quota (q r : Nat) :
    ∀ T, r ≤ T →
      ((List.range T).map (fun k => q + if k < r then 1 else 0)).sum = T * q + r := by
  intro T
  induction T with
  | zero => intro h; simp; omega
  | succ n ih =>
      intro h
      rw [List.range_succ, List.map_append, List.sum_append]
      simp only [List.map_cons, List.map_nil, List.sum_cons, List.sum_nil]
      by_cases hr : r ≤ n
      · rw [ih hr, if_neg (by omega)]
        rw [Nat.succ_mul]
        omega
      · have hrn : r = n + 1 := by omega
        subst hrn
        have hall : (List.range n).map (fun k => q + if k < n + 1 then 1 else 0)
            = (List.range n).map (fun _ => q + 1) := by
          apply List.map_congr_left
          intro k hk
          rw [if_pos (by have := List.mem_range.mp hk; omega)]
        rw [hall, if_pos (by omega)]
        simp [List.map_const, List.sum_replicate, Nat.succ_mul, Nat.mul_succ]
        omega

/-- C4: worker `k` is assigned `M / T` operations plus one extra exactly
when `k < M % T`; the quotas sum to `M` and no two quotas differ by more
than 1. -/
theorem balanced_split (M T : Nat) (hT : 1 ≤ T) :
    (∀ k, workerNumOperations M T k = M / T + if k < M % T then 1 else 0)
    ∧ ((List.range T).map (workerNumOperations M T)).sum = M
    ∧ ∀ j k, workerNumOperations M T j ≤ workerNumOperations M T k + 1 := by
  have hsub : M - M / T * T = M % T :=
    Nat.sub_eq_of_eq_add (Nat.mod_add_div' M T).symm
  have hchar : ∀ k, workerNumOperations M T k
      = M / T + if k < M % T then 1 else 0 := by
    intro k
    simp only [workerNumOperations]
    rw [hsub]
    by_cases hk : k < M % T
    · rw [if_pos hk, if_pos hk]
    · rw [if_neg hk, if_neg hk, Nat.add_zero]
  refine ⟨hchar, ?_, ?_⟩
  · have hmap : (List.range T).map (workerNumOperations M T)
        = (List.range T).map (fun k => M / T + if k < M % T then 1 else 0) :=
      List.map_congr_left fun k _ => hchar k
    rw [hmap, sum_range_quota (M / T) (M % T) T (le_of_lt (Nat.mod_lt M hT))]
    exact Nat.div_add_mod M T
  · intro j k
    rw [hchar j, hchar k]
    split_ifs <;> omega

/-- C4 witness: the balanced split at `M = 7`, `T = 3` (quotas 3, 2, 2
summing to 7). -/
theorem balanced_split_witness :
    ((List.range 3).map (workerNumOperations 7 3)).sum = 7 ∧
    workerNumOperations 7 3 0 ≤ workerNumOperations 7 3 2 + 1 :=
  ⟨(balanced_split 7 3 (by decide)).2.1, (balanced_split 7 3 (by decide)).2.2 0 2⟩

/-- C6: in the benchmark worker loop, a READ whose status is OK or
LOOKUP_ERROR ("not found") simply continues the loop; a READ with any
other status immediately ends the loop as `::exit(1)` (non-zero process
status); a WRITE with any non-OK status throws, which also terminates
the process with status 1 — WRITE has no tolerated failure status. -/
theorem read_tolerates_lookup_error (results : Nat → Status)
    (exitFlag : Nat → Bool) (i n : Nat) (hflag : exitFlag i = false) :
    ((results i = Status.ok ∨ results i = Status.lookupError) →
        operationLoop OperationType.READ results exitFlag i (n + 1)
          = operationLoop OperationType.READ results exitFlag (i + 1) n)
    ∧ (results i ≠ Status.ok → results i ≠ Status.lookupError →
        operationLoop OperationType.READ results exitFlag i (n + 1)
            = WorkerOutcome.processExit 1 i
        ∧ workerExitCode (WorkerOutcome.processExit 1 i) = some 1)
    ∧ (results i ≠ Status.ok →
        operationLoop OperationType.WRITE results exitFlag i (n + 1)
            = WorkerOutcome.clientException i
        ∧ workerExitCode (WorkerOutcome.clientException i) = some 1) := by
  refine ⟨?_, ?_, ?_⟩
  · intro hok
    have hcond : ¬(results i ≠ Status.ok ∧ results i ≠ Status.lookupError) := by
      rcases hok with h | h <;> simp [h]
    simp [operationLoop, hflag, hcond]
  · intro h1 h2
    exact ⟨by simp [operationLoop, hflag, h1, h2], rfl⟩
  · intro h1
    exact ⟨by simp [operationLoop, hflag, h1], rfl⟩

/-- C6 witness: a READ whose status is TIMEOUT exits the process with
status 1 at the first operation. -/
theorem read_tolerates_lookup_error_witness :
    operationLoop OperationType.READ (fun _ => Status.timeout)
        (fun _ => false) 0 1
      = WorkerOutcome.processExit 1 0
    ∧ workerExitCode (WorkerOutcome.processExit 1 0) = some 1 :=
  (read_tolerates_lookup_error (fun _ => Status.timeout) (fun _ => false) 0 0
    rfl).2.1 (by decide) (by decide)

/-- Elapsed benchmark duration in seconds,
`static_cast<double>(endNanos - startNanos) / 1e9`, modelled with exact
rational arithmetic. -/
def benchElapsedSeconds (startNanos endNanos : Nat) : ℚ :=
  ((endNanos - startNanos : Nat) : ℚ) / ((10 : ℚ) ^ 9)

/-- The ops-per-second value the benchmark writes,
`static_cast<double>(totalOperationsDone) / sec`, modelled with exact
rational arithmetic (at the claim's operands every binary64 step is
exact, so the rational model agrees with the double computation). -/
def benchOpsPerSec (totalOperationsDone startNanos endNanos : Nat) : ℚ :=
  (totalOperationsDone : ℚ) / benchElapsedSeconds startNanos endNanos

/-- The spec's formula `opsPerSec = totalOperations / (elapsedNanos /
1e9)`, stated on rationals for comparison with the code's computation. -/
def opsPerSecSpecFormula (totalOperations elapsedNanos : ℚ) : ℚ :=
  totalOperations / (elapsedNanos / (10 : ℚ) ^ 9)

/-- Content of the configured ops-per-second output file: nothing when
no file name is configured, otherwise the single rate value. -/
def opsPerSecFileContent (opsPerSecFileName : Str) (rate : ℚ) : Option ℚ :=
  if opsPerSecFileName = [] then none else some rate

/-- C8: the benchmark's rate equals `totalOperations / (elapsedNanos /
1e9)`; for 100000 operations in 2&#8239;000&#8239;000&#8239;000 ns it is exactly 50000,
and that single value is what lands in the configured output file. -/
theorem throughput_arithmetic :
    (∀ ops startNanos endNanos : Nat,
        benchOpsPerSec ops startNanos endNanos
          = opsPerSecSpecFormula (ops : ℚ) ((endNanos - startNanos : Nat) : ℚ))
    ∧ benchOpsPerSec 100000 0 2000000000 = (50000 : ℚ)
    ∧ ∀ fileName : Str, fileName ≠ [] →
        opsPerSecFileContent fileName (benchOpsPerSec 100000 0 2000000000)
          = some (50000 : ℚ) := by
  have h50 : benchOpsPerSec 100000 0 2000000000 = (50000 : ℚ) := by
    norm_num [benchOpsPerSec, benchElapsedSeconds]
  refine ⟨fun ops s e => rfl, h50, ?_⟩
  intro fileName hf
  rw [opsPerSecFileContent, if_neg hf, h50]

/-- C8 witness: the output-file content at the concrete file name
`"ops.txt"`. -/
theorem throughput_arithmetic_witness :
    opsPerSecFileContent ("ops.txt".toList) (benchOpsPerSec 100000 0 2000000000)
      = some (50000 : ℚ) :=
  throughput_arithmetic.2.2 ("ops.txt".toList) (by decide)

/-- `std::to_string(i)` for a non-negative integer: its decimal digit
string. -/
def decStr (n : Nat) : Str := Nat.toDigits 10 n

/-- Observable actions of one round of `ConsistencyTest.cc`'s loop:
constructing a fresh `Cluster`/`Tree` handle, the tree operations, and
the inter-round sleep. -/
inductive CAction where
  | newHandle
  | makeDirectory (path : Str)
  | write (path value : Str)
  | read (path : Str)
  | sleep
deriving DecidableEq

/-- The actions round `i` issues before its assert: a fresh handle,
`makeDirectoryEx("/ConsistencyTest")`,
`writeEx("/ConsistencyTest/test", to_string(i))`, another fresh handle,
and `readEx("/ConsistencyTest/test")`. -/
def consistencyRoundTrace (i : Nat) : List CAction :=
  [CAction.newHandle, CAction.makeDirectory consistencyDirPath,
   CAction.write consistencyTestPath (decStr i), CAction.newHandle,
   CAction.read consistencyTestPath]

/-- The `for (int i = 0; i < 10; ++i)` loop of `ConsistencyTest.cc`,
run from round `i` for `n` more rounds: each round issues its trace,
then `assert(contents == std::to_string(i))`; on success it sleeps
100ms and continues, on failure it aborts (recorded as `some i`).
`oracle i` abstracts the value `readEx` returns in round `i`. -/
def consistencyRun (oracle : Nat → Str) : Nat → Nat → List CAction × Option Nat
  | _, 0 => ([], none)
  | i, n + 1 =>
      if oracle i = decStr i then
        let rest := consistencyRun oracle (i + 1) n
        (consistencyRoundTrace i ++ CAction.sleep :: rest.1, rest.2)
      else (consistencyRoundTrace i, some i)

/-- The whole consistency loop: rounds 0 through 9. -/
def consistencyMain (oracle : Nat → Str) : List CAction × Option Nat :=
  consistencyRun oracle 0 10

/-- The action trace of a complete, assertion-passing run: ten rounds in
order. -/
def consistencyFullTrace : List CAction :=
  ((List.range' 0 10).map fun i => consistencyRoundTrace i ++ [CAction.sleep]).flatten

theorem consistencyRun_all_ok (oracle : Nat → Str) :
    ∀ n i, (∀ j, i ≤ j → j < i + n → oracle j = decStr j) →
      consistencyRun oracle i n
        = (((List.range' i n).map fun j => consistencyRoundTrace j ++ [CAction.sleep]).flatten,
           none) := by
  intro n
  induction n with
  | zero => intro i _; simp [consistencyRun, List.range']
  | succ m ih =>
      intro i h
      have hi : oracle i = decStr i := h i (Nat.le_refl i) (by omega)
      have hrest := ih (i + 1) (fun j hj1 hj2 => h j (by omega) (by omega))
      rw [consistencyRun, if_pos hi, hrest]
      simp [List.range']

theorem consistencyRun_none_matched (oracle : Nat → Str) :
    ∀ n i, (consistencyRun oracle i n).2 = none →
      ∀ j, i ≤ j → j < i + n → oracle j = decStr j := by
  intro n
  induction n with
  | zero => intro i _ j h1 h2; omega
  | succ m ih =>
      intro i hnone j h1 h2
      by_cases hc : oracle i = decStr i
      · rw [consistencyRun, if_pos hc] at hnone
        by_cases hji : j = i
        · rw [hji]; exact hc
        · exact ih (i + 1) hnone j (by omega) (by omega)
      · rw [consistencyRun, if_neg hc] at hnone
        cases hnone

theorem consistencyRun_aborts (oracle : Nat → Str) :
    ∀ n i k, k < n → (∀ j, i ≤ j → j < i + k → oracle j = decStr j) →
      oracle (i + k) ≠ decStr (i + k) →
      (consistencyRun oracle i n).2 = some (i + k) := by
  intro n
  induction n with
  | zero => intro i k hk; omega
  | succ m ih =>
      intro i k hk hbefore hbad
      cases k with
      | zero =>
          rw [Nat.add_zero] at hbad
          rw [consistencyRun, if_neg hbad]
          simp
      | succ k2 =>
          have hi : oracle i = decStr i := hbefore i (Nat.le_refl i) (by omega)
          rw [consistencyRun, if_pos hi]
          have := ih (i + 1) k2 (by omega)
            (fun j hj1 hj2 => hbefore j (by omega) (by omega))
            (by rw [show i + 1 + k2 = i + (k2 + 1) from by omega]; exact hbad)
          rw [show i + 1 + k2 = i + (k2 + 1) from by omega] at this
          exact this

/-- C7: the consistency loop runs exactly rounds 0 through 9; when the
read of round `i` returns `to_string(i)` for every `i < 10`, the run
performs, in order and per round, a fresh handle, the directory
creation, the write of `to_string(i)` to `/ConsistencyTest/test`,
another fresh handle, and the read of the same path, completing without
abort; a completed (non-aborted) run implies every round's read matched;
and the first mismatching round `i < 10` aborts the run at `i`. -/
theorem consistencyLoop_ten_rounds :
    (∀ oracle : Nat → Str, (∀ i, i < 10 → oracle i = decStr i) →
        consistencyMain oracle = (consistencyFullTrace, none))
    ∧ (∀ oracle : Nat → Str, ∀ i, i < 10 →
        (consistencyMain oracle).2 = none → oracle i = decStr i)
    ∧ (∀ oracle : Nat → Str, ∀ i, i < 10 →
        (∀ j, j < i → oracle j = decStr j) → oracle i ≠ decStr i →
        (consistencyMain oracle).2 = some i) := by
  refine ⟨?_, ?_, ?_⟩
  · intro oracle h
    exact consistencyRun_all_ok oracle 10 0 (fun j _ hj => h j (by omega))
  · intro oracle i hi hnone
    exact consistencyRun_none_matched oracle 10 0 hnone i (by omega) (by omega)
  · intro oracle i hi hbefore hbad
    have := consistencyRun_aborts oracle 10 0 i hi
      (fun j _ hj => hbefore j (by omega)) (by simpa using hbad)
    simpa using this

/-- C7 witness: with an oracle returning exactly `to_string(i)` in every
round, the loop completes all ten rounds with the full trace and no
abort. -/
theorem consistencyLoop_ten_rounds_witness :
    consistencyMain decStr = (consistencyFullTrace, none) :=
  consistencyLoop_ten_rounds.1 decStr (fun _ _ => rfl)

end LogCabinHarness
